import Mathlib

/-!
Verification development for the `crabby_kv` repository: a multi-threaded
command processor over an in-memory key/value store.  The embedding below
translates `src/parser.rs`, `src/handler.rs` and `src/thread.rs` into Lean:
pure functions become Lean functions, the worker/state-owner loops become
folds over the list of items they receive, and the lifecycle of the thread
pool (submission queue, workers, dispatch channel, state owner) becomes an
explicit small-step transition relation on a pool state.
-/

namespace CrabbyKV

/-! ## Parser (`src/parser.rs`)

Rust `Command::from_str` trims the line, rejects empty lines, splits on
whitespace and matches the token list against the three command shapes. -/

/-- Lean image of Rust `enum CommandType { Set(String, String), Get(String), Delete(String) }`. -/
inductive CommandType where
  | Set : String → String → CommandType
  | Get : String → CommandType
  | Delete : String → CommandType
deriving DecidableEq, Repr

/-- Lean image of Rust `struct Command { command_type: CommandType }`. -/
structure Command where
  command_type : CommandType
deriving DecidableEq, Repr

/-- Characters of `str::trim`: leading and trailing whitespace removed. -/
def trimChars (l : List Char) : List Char :=
  ((l.dropWhile Char.isWhitespace).reverse.dropWhile Char.isWhitespace).reverse

/-- Accumulator-based whitespace splitter: the chars of the current token are
held reversed in `cur`; empty pieces are never emitted, matching Rust
`str::split_whitespace`. -/
def splitWsAux : List Char → List Char → List (List Char)
  | [], cur => if cur.isEmpty then [] else [cur.reverse]
  | c :: cs, cur =>
      if c.isWhitespace then
        if cur.isEmpty then splitWsAux cs [] else cur.reverse :: splitWsAux cs []
      else splitWsAux cs (c :: cur)

/-- Whitespace-delimited tokens of the trimmed line, as in
`line.trim().split_whitespace().collect::<Vec<_>>()`. -/
def tokensOf (line : String) : List String :=
  (splitWsAux (trimChars line.toList) []).map List.asString

/-- Token-list dispatch of `Command::from_str`.  The Rust `match` arms are
`["SET", key, value @ ..] if !value.is_empty()`, `["GET", key]`,
`["DELETE", key]`, with a fall-through parse error carrying the trimmed
line; the guard chain below is the same case split. -/
def parseTokens (orig : String) : List String → Except String Command
  | verb :: key :: rest =>
      if verb = "SET" ∧ rest ≠ [] then
        .ok ⟨.Set key (String.intercalate " " rest)⟩
      else if verb = "GET" ∧ rest = [] then
        .ok ⟨.Get key⟩
      else if verb = "DELETE" ∧ rest = [] then
        .ok ⟨.Delete key⟩
      else
        .error ("Invalid command: " ++ orig)
  | _ => .error ("Invalid command: " ++ orig)

/-- Lean image of `Command::from_str` (`src/parser.rs` lines 24–44). -/
def fromStr (line : String) : Except String Command :=
  if (trimChars line.toList).isEmpty then .error "Empty line"
  else parseTokens (trimChars line.toList).asString (tokensOf line)

/-- Boolean success test on `Except`, the image of `Result::is_ok`. -/
def okB : Except ε α → Bool
  | .ok _ => true
  | .error _ => false

/-! ## Store and command handler (`src/handler.rs`)

The Rust store is a `HashMap<String, String>`; its map semantics is embedded
as a function from keys to optional values. -/

/-- Store state: the key/value mapping of `CommandHandler.store`. -/
def Store : Type := String → Option String

/-- Lookup, the image of `HashMap::get`. -/
def sget (st : Store) (k : String) : Option String := st k

/-- Insert-or-overwrite, the image of `HashMap::insert`. -/
def sinsert (k v : String) (st : Store) : Store :=
  fun q => if q = k then some v else st q

/-- Removal, the image of `HashMap::remove`: the removed value (if any)
together with the store without the key. -/
def sremove (k : String) (st : Store) : Option String × Store :=
  (st k, fun q => if q = k then none else st q)

/-- Lean image of Rust `struct CommandHandler { store: HashMap<String, String> }`. -/
structure CommandHandler where
  store : Store

/-- Fresh handler, the image of `CommandHandler::new`. -/
def CommandHandler.new : CommandHandler := ⟨fun _ => none⟩

/-- Lean image of `CommandHandler::process_command` together with its three
branches `handle_set`, `handle_get`, `handle_delete`
(`src/handler.rs` lines 15–41).  `&mut self` becomes explicit state passing. -/
def processCommand (h : CommandHandler) (c : Command) :
    Except String String × CommandHandler :=
  match c.command_type with
  | .Set k v =>
      (.ok ("SET " ++ k ++ " = " ++ v), ⟨sinsert k v h.store⟩)
  | .Get k =>
      ((match sget h.store k with
        | some v => .ok ("GET " ++ k ++ " = " ++ v)
        | none => .error ("Key \x27" ++ k ++ "\x27 not found")), h)
  | .Delete k =>
      ((match (sremove k h.store).1 with
        | some v => .ok ("DELETED " ++ k ++ " (was: " ++ v ++ ")")
        | none => .error ("Key \x27" ++ k ++ "\x27 not found")),
       ⟨(sremove k h.store).2⟩)

/-! ## Threads (`src/thread.rs`)

The IO-thread loop and the main-thread loop are sequential folds over the
list of items each receives; the whole pool lifecycle is a small-step
transition relation further below. -/

/-- Lean image of Rust `struct CommandMessage`. -/
structure CommandMessage where
  command : Command
  line_number : Nat
  io_thread_id : Nat
deriving DecidableEq, Repr

/-- Outcome of one iteration of the IO-thread loop body on one raw unit
(`IoThread::run`, `src/thread.rs` lines 146–177): blank lines are skipped,
parse failures produce no message, successful parses are wrapped in a
`CommandMessage`. -/
def processUnit (id : Nat) (u : String × Nat) : Option CommandMessage :=
  if (trimChars u.1.toList).isEmpty then none
  else
    match fromStr u.1 with
    | .ok c => some ⟨c, u.2, id⟩
    | .error _ => none

/-- Full IO-thread loop over the units this worker dequeues: the list of
dispatched messages together with the reported parse errors
(line number and reason), mirroring `IoThread::run`. -/
def ioRun (id : Nat) : List (String × Nat) → List CommandMessage × List (Nat × String)
  | [] => ([], [])
  | (s, n) :: rest =>
      let r := ioRun id rest
      if (trimChars s.toList).isEmpty then r
      else
        match fromStr s with
        | .ok c => (⟨c, n, id⟩ :: r.1, r.2)
        | .error e => (r.1, (n, e) :: r.2)

/-- Main-thread loop (`MainThread::run`, `src/thread.rs` lines 208–236):
for every received message the processed count is incremented and the
command applied; the final count, the per-command outcomes and the final
handler are the observable result of the loop. -/
def mainRun : List CommandMessage → CommandHandler →
    Nat × List (Except String String) × CommandHandler
  | [], h => (0, [], h)
  | m :: rest, h =>
      let p := processCommand h m.command
      let r := mainRun rest p.2
      (r.1 + 1, p.1 :: r.2.1, r.2.2)

/-! ## Pool lifecycle (`ThreadPool`) -/

/-- Startable part of the pool: `ThreadPool.main_thread` is an `Option` that
`start_main_thread` `take`s. -/
structure ThreadPool where
  numIoThreads : Nat
  mainThread : Option Unit
deriving DecidableEq, Repr

/-- Lean image of `ThreadPool::new`: the main thread is present, not yet
started. -/
def ThreadPool.new (n : Nat) : ThreadPool := ⟨n, some ()⟩

/-- Lean image of `ThreadPool::start_main_thread`
(`src/thread.rs` lines 64–69): `self.main_thread.take().expect(...)`.
The `expect` panic on a second invocation is embedded as the error carrying
the panic message. -/
def startMainThread (p : ThreadPool) : Except String (Unit × ThreadPool) :=
  match p.mainThread with
  | some m => .ok (m, { p with mainThread := none })
  | none => .error "Main thread already started"

/-! ## Small-step model of the running pool

State of the whole pipeline: whether the submission side has been closed
(`string_sender` dropped), the raw units still queued, the number of live
workers, the dispatched messages not yet consumed by the main thread,
whether the main thread is still running, and its count and handler. -/

/-- Global pool state for the transition system. -/
structure PoolSt where
  closed : Bool
  queue : List (String × Nat)
  live : Nat
  buffer : List CommandMessage
  mainAlive : Bool
  count : Nat
  handler : CommandHandler

/-- Transitions of the pool.  `submit`/`close` model the caller side of the
submission channel; `workerTake` is one IO-thread loop iteration;
`workerExit` is the `Err` branch of the shared `recv` (channel closed and
drained); `mainConsume` is one main-thread loop iteration; `mainExit` is the
main thread's `recv` failing once every worker has dropped its sender and
the buffer is drained. -/
inductive Step : PoolSt → PoolSt → Prop where
  | submit (s : PoolSt) (u : String × Nat) (h : s.closed = false) :
      Step s { s with queue := s.queue ++ [u] }
  | close (s : PoolSt) (h : s.closed = false) :
      Step s { s with closed := true }
  | workerTake (s : PoolSt) (id : Nat) (u : String × Nat)
      (rest : List (String × Nat)) (hl : 1 ≤ s.live) (hq : s.queue = u :: rest) :
      Step s { s with queue := rest,
                      buffer := s.buffer ++ (processUnit id u).toList }
  | workerExit (s : PoolSt) (hc : s.closed = true) (hq : s.queue = [])
      (hl : 1 ≤ s.live) :
      Step s { s with live := s.live - 1 }
  | mainConsume (s : PoolSt) (m : CommandMessage) (rest : List CommandMessage)
      (hm : s.mainAlive = true) (hb : s.buffer = m :: rest) :
      Step s { s with buffer := rest, count := s.count + 1,
                      handler := (processCommand s.handler m.command).2 }
  | mainExit (s : PoolSt) (hm : s.mainAlive = true) (hl : s.live = 0)
      (hb : s.buffer = []) :
      Step s { s with mainAlive := false }

/-- Termination measure: submissions are weighted twice because taking a
unit may add one buffered message. -/
def measureP (s : PoolSt) : Nat :=
  2 * s.queue.length + s.buffer.length + s.live + s.mainAlive.toNat

/-- Submission-side send, the image of `Sender::send` on the string channel
under the spec's queue-closure reading: it fails exactly when the channel
has been closed. -/
def submitP (s : PoolSt) (u : String × Nat) : Except String PoolSt :=
  if s.closed then .error "QueueClosed"
  else .ok { s with queue := s.queue ++ [u] }

/-- Closing the submission side, the image of dropping `string_sender`. -/
def closeP (s : PoolSt) : PoolSt := { s with closed := true }

/-- Pool state right after `ThreadPool::new(n)` followed immediately by
closing submission with zero units ever sent (spec Scenario D). -/
def initShutdown (n : Nat) : PoolSt :=
  { closed := true, queue := [], live := n, buffer := [], mainAlive := true,
    count := 0, handler := CommandHandler.new }

/-! ## Store lemmas -/

theorem sget_sinsert_self (k v : String) (st : Store) :
    sget (sinsert k v st) k = some v := by
  simp [sget, sinsert]

theorem sremove_fst (k : String) (st : Store) :
    (sremove k st).1 = sget st k := rfl

theorem sget_sremove_self (k : String) (st : Store) :
    sget (sremove k st).2 k = none := by
  simp [sget, sremove]

theorem sremove_absent (k : String) (st : Store) (h : sget st k = none) :
    (sremove k st).2 = st := by
  funext q
  show (if q = k then none else st q) = st q
  by_cases hq : q = k
  · rw [if_pos hq, hq]; exact h.symm
  · rw [if_neg hq]

/-- C1: processing `Set(key, value)` inserts or overwrites that key and
always succeeds echoing key and value; `Get(key)` succeeds with the stored
value exactly when the key is present, else fails with the key-not-found
error; `Delete(key)` removes the key and succeeds with the removed value
exactly when the key is present, else fails with the key-not-found error. -/
theorem process_command_spec (st : Store) (k v : String) :
    processCommand ⟨st⟩ ⟨.Set k v⟩
        = (.ok ("SET " ++ k ++ " = " ++ v), ⟨sinsert k v st⟩)
  ∧ sget (sinsert k v st) k = some v
  ∧ processCommand ⟨st⟩ ⟨.Get k⟩
        = ((match sget st k with
            | some w => Except.ok ("GET " ++ k ++ " = " ++ w)
            | none => Except.error ("Key \x27" ++ k ++ "\x27 not found")), ⟨st⟩)
  ∧ processCommand ⟨st⟩ ⟨.Delete k⟩
        = ((match sget st k with
            | some w => Except.ok ("DELETED " ++ k ++ " (was: " ++ w ++ ")")
            | none => Except.error ("Key \x27" ++ k ++ "\x27 not found")),
           ⟨(sremove k st).2⟩)
  ∧ (sremove k st).1 = sget st k
  ∧ sget (sremove k st).2 k = none := by
  exact ⟨rfl, sget_sinsert_self k v st, rfl, rfl, rfl, sget_sremove_self k st⟩

/-- C8: round-trip laws — `SET k v` then `GET k` returns `v`; `DELETE k`
then `GET k` fails with the key-not-found error; and the Scenario A
pipeline run `SET a 1`, `GET a`, `DELETE a`, `GET a` yields exactly
set-ok, get-ok, delete-ok, get-fails(KeyNotFound). -/
theorem round_trip (st : Store) (k v : String) :
    (processCommand (processCommand ⟨st⟩ ⟨.Set k v⟩).2 ⟨.Get k⟩).1
        = .ok ("GET " ++ k ++ " = " ++ v)
  ∧ (processCommand (processCommand ⟨st⟩ ⟨.Delete k⟩).2 ⟨.Get k⟩).1
        = .error ("Key \x27" ++ k ++ "\x27 not found")
  ∧ (mainRun (ioRun 0 [("SET a 1", 1), ("GET a", 2), ("DELETE a", 3), ("GET a", 4)]).1
        CommandHandler.new).2.1
        = [.ok "SET a = 1", .ok "GET a = 1",
           .ok "DELETED a (was: 1)", .error "Key \x27a\x27 not found"] := by
  refine ⟨?_, ?_, rfl⟩
  · show (match sget (sinsert k v st) k with
          | some w => Except.ok ("GET " ++ k ++ " = " ++ w)
          | none => Except.error ("Key \x27" ++ k ++ "\x27 not found")) = _
    rw [sget_sinsert_self]
  · show (match sget (sremove k st).2 k with
          | some w => Except.ok ("GET " ++ k ++ " = " ++ w)
          | none => Except.error ("Key \x27" ++ k ++ "\x27 not found")) = _
    rw [sget_sremove_self]

/-- C9: atomicity on error — whenever `process_command` fails (Get or
Delete on an absent key) the store is exactly unchanged, and Get never
mutates the store whether it succeeds or fails. -/
theorem error_atomicity :
    (∀ (st : Store) (c : Command),
        okB (processCommand ⟨st⟩ c).1 = false →
        (processCommand ⟨st⟩ c).2 = ⟨st⟩)
  ∧ (∀ (st : Store) (k : String), (processCommand ⟨st⟩ ⟨.Get k⟩).2 = ⟨st⟩) := by
  constructor
  · intro st c hfail
    obtain ⟨ct⟩ := c
    cases ct with
    | Set k v => exact absurd hfail (by simp [processCommand, okB])
    | Get k => rfl
    | Delete k =>
        cases h : sget st k with
        | some w =>
            refine absurd hfail ?_
            have : (processCommand ⟨st⟩ ⟨.Delete k⟩).1
                = (match sget st k with
                   | some v => Except.ok ("DELETED " ++ k ++ " (was: " ++ v ++ ")")
                   | none => Except.error ("Key \x27" ++ k ++ "\x27 not found")) := rfl
            rw [this, h]
            simp [okB]
        | none =>
            show (⟨(sremove k st).2⟩ : CommandHandler) = ⟨st⟩
            rw [sremove_absent k st h]
  · intro st k
    rfl

/-- Witness for C9 at the empty store and key `a`. -/
theorem error_atomicity_witness :
    okB (processCommand ⟨CommandHandler.new.store⟩ ⟨.Get "a"⟩).1 = false
  ∧ (processCommand ⟨CommandHandler.new.store⟩ ⟨.Get "a"⟩).2
      = ⟨CommandHandler.new.store⟩ :=
  ⟨rfl, error_atomicity.1 CommandHandler.new.store ⟨.Get "a"⟩ rfl⟩

/-! ## Worker and state-owner loop lemmas -/

theorem ioRun_fst_length (id : Nat) (units : List (String × Nat)) :
    (ioRun id units).1.length
      = (units.filter
          (fun u => !(trimChars u.1.toList).isEmpty && okB (fromStr u.1))).length := by
  induction units with
  | nil => rfl
  | cons u rest ih =>
      obtain ⟨s, n⟩ := u
      by_cases hb : trimChars s.data = []
      · simp [ioRun, hb, ih]
      · cases hf : fromStr s <;>
          simp [ioRun, hb, hf, okB, ih]

theorem mainRun_count (msgs : List CommandMessage) (h : CommandHandler) :
    (mainRun msgs h).1 = msgs.length := by
  induction msgs generalizing h with
  | nil => rfl
  | cons m rest ih => simp [mainRun, ih]

/-- C3: the state owner increments the processed count exactly once per
message it receives — successes and per-command failures alike — and in a
pipeline run the count equals the number of units that are non-blank and
parse successfully, so parse failures (which never reach the state owner)
are never counted; the run's result carries the final count. -/
theorem processed_count_spec :
    (∀ (msgs : List CommandMessage) (h : CommandHandler),
        (mainRun msgs h).1 = msgs.length)
  ∧ (∀ (id : Nat) (units : List (String × Nat)) (h : CommandHandler),
        (mainRun (ioRun id units).1 h).1
          = (units.filter
              (fun u => !(trimChars u.1.toList).isEmpty && okB (fromStr u.1))).length) := by
  refine ⟨mainRun_count, ?_⟩
  intro id units h
  rw [mainRun_count, ioRun_fst_length]

/-- C7: a blank or whitespace-only raw unit is silently skipped by the
worker — no message is dispatched, no parse error is reported, and the
worker goes on to the remaining units unchanged. -/
theorem blank_skipped (id : Nat) (s : String) (n : Nat)
    (rest : List (String × Nat)) (hb : (trimChars s.toList).isEmpty = true) :
    ioRun id ((s, n) :: rest) = ioRun id rest
      ∧ processUnit id (s, n) = none := by
  have hb' : trimChars s.data = [] := by simpa using hb
  constructor
  · simp [ioRun, hb']
  · simp [processUnit, hb']

/-- Witness for C7 on a whitespace-only line. -/
theorem blank_skipped_witness :
    (trimChars "   ".toList).isEmpty = true
  ∧ ioRun 0 [("   ", 1), ("GET a", 2)] = ioRun 0 [("GET a", 2)] :=
  ⟨by decide, (blank_skipped 0 "   " 1 [("GET a", 2)] (by decide)).1⟩

/-- C4: starting the main thread succeeds exactly once — on a fresh pool it
returns the started handle, and any further invocation (the pool's
main-thread slot now empty) fails with the already-started error, with no
change to the pool. -/
theorem start_once (n : Nat) :
    (∃ h p', startMainThread (ThreadPool.new n) = .ok (h, p')
        ∧ startMainThread p' = .error "Main thread already started")
  ∧ (∀ p : ThreadPool, p.mainThread = none →
        startMainThread p = .error "Main thread already started") := by
  constructor
  · exact ⟨(), ⟨n, none⟩, rfl, rfl⟩
  · intro p hp
    obtain ⟨m, mt⟩ := p
    cases mt with
    | none => rfl
    | some u => cases hp

/-- Witness for C4 at a pool whose main thread has already been taken. -/
theorem start_once_witness :
    startMainThread ⟨3, none⟩ = .error "Main thread already started" :=
  (start_once 3).2 ⟨3, none⟩ rfl

/-! ## Shutdown protocol: preservation, progress and termination -/

theorem Step.closed_mono {s t : PoolSt} (h : Step s t) (hc : s.closed = true) :
    t.closed = true := by
  cases h <;> simp_all

theorem Step.measure_lt {s t : PoolSt} (h : Step s t) (hc : s.closed = true) :
    measureP t < measureP s := by
  cases h with
  | submit u h => rw [hc] at h; cases h
  | close h => rw [hc] at h; cases h
  | workerTake id u rest hl hq =>
      have hql : s.queue.length = rest.length + 1 := by rw [hq]; rfl
      have hto : (processUnit id u).toList.length ≤ 1 := by
        cases processUnit id u <;> simp
      simp only [measureP, List.length_append]
      omega
  | workerExit hc2 hq hl =>
      simp only [measureP]
      omega
  | mainConsume m rest hm hb =>
      have hbl : s.buffer.length = rest.length + 1 := by rw [hb]; rfl
      simp only [measureP]
      omega
  | mainExit hm hl hb =>
      simp only [measureP, hm, Bool.toNat_true, Bool.toNat_false]
      omega

theorem Step.progress (s : PoolSt) (hc : s.closed = true)
    (h : ¬(s.live = 0 ∧ s.mainAlive = false)) : ∃ t, Step s t := by
  cases hl : s.live with
  | succ k =>
      cases hq : s.queue with
      | nil => exact ⟨_, Step.workerExit s hc hq (by omega)⟩
      | cons u rest => exact ⟨_, Step.workerTake s 0 u rest (by omega) hq⟩
  | zero =>
      have hm : s.mainAlive = true := by
        cases hma : s.mainAlive
        · exact absurd ⟨hl, hma⟩ h
        · rfl
      cases hb : s.buffer with
      | nil => exact ⟨_, Step.mainExit s hm hl hb⟩
      | cons m rest => exact ⟨_, Step.mainConsume s m rest hm hb⟩

theorem reach_terminal : ∀ (N : Nat) (s : PoolSt), measureP s ≤ N →
    s.closed = true →
    ∃ t, Relation.ReflTransGen Step s t ∧ t.live = 0 ∧ t.mainAlive = false := by
  intro N
  induction N with
  | zero =>
      intro s hm hc
      refine ⟨s, Relation.ReflTransGen.refl, ?_, ?_⟩
      · have := hm; simp only [measureP] at this; omega
      · cases hma : s.mainAlive
        · rfl
        · exfalso
          rw [measureP, hma, Bool.toNat_true] at hm
          omega
  | succ n ih =>
      intro s hm hc
      by_cases ht : s.live = 0 ∧ s.mainAlive = false
      · exact ⟨s, Relation.ReflTransGen.refl, ht.1, ht.2⟩
      · obtain ⟨s', hstep⟩ := Step.progress s hc ht
        have hc' := Step.closed_mono hstep hc
        have hlt := Step.measure_lt hstep hc
        obtain ⟨t, rtg, h1, h2⟩ := ih s' (by omega) hc'
        exact ⟨t, Relation.ReflTransGen.head hstep rtg, h1, h2⟩

theorem Step.scenarioD {s t : PoolSt} (h : Step s t)
    (inv : s.closed = true ∧ s.queue = [] ∧ s.buffer = [] ∧ s.count = 0) :
    t.closed = true ∧ t.queue = [] ∧ t.buffer = [] ∧ t.count = 0 := by
  obtain ⟨hc, hq, hb, hct⟩ := inv
  cases h <;> simp_all

theorem rtg_scenarioD (n : Nat) :
    ∀ s, Relation.ReflTransGen Step (initShutdown n) s →
      s.closed = true ∧ s.queue = [] ∧ s.buffer = [] ∧ s.count = 0 := by
  intro s h
  induction h with
  | refl => exact ⟨rfl, rfl, rfl, rfl⟩
  | tail _ hbc ih => exact Step.scenarioD hbc ih

/-- C5: after the submission side is closed, the pool always terminates —
from every closed state some finite sequence of steps reaches a state with
no live worker and the state owner exited (and the step relation can always
fire until then, so there is no deadlock), for every number of workers and
queued submissions; in particular, closing with zero units ever sent makes
the state owner terminate with processed count 0. -/
theorem shutdown_terminates :
    (∀ s : PoolSt, s.closed = true →
        ∃ t, Relation.ReflTransGen Step s t ∧ t.live = 0 ∧ t.mainAlive = false)
  ∧ (∀ (n : Nat) (s : PoolSt),
        Relation.ReflTransGen Step (initShutdown n) s → s.count = 0)
  ∧ (∀ n : Nat, ∃ t, Relation.ReflTransGen Step (initShutdown n) t
        ∧ t.live = 0 ∧ t.mainAlive = false ∧ t.count = 0) := by
  refine ⟨?_, ?_, ?_⟩
  · intro s hc
    exact reach_terminal (measureP s) s le_rfl hc
  · intro n s h
    exact (rtg_scenarioD n s h).2.2.2
  · intro n
    obtain ⟨t, rtg, h1, h2⟩ :=
      reach_terminal (measureP (initShutdown n)) (initShutdown n) le_rfl rfl
    exact ⟨t, rtg, h1, h2, (rtg_scenarioD n t rtg).2.2.2⟩

/-- Witness for C5: shutdown from one worker and zero submissions reaches
termination, with processed count 0. -/
theorem shutdown_terminates_witness :
    (∃ t, Relation.ReflTransGen Step (initShutdown 1) t
        ∧ t.live = 0 ∧ t.mainAlive = false)
  ∧ (initShutdown 2).count = 0 :=
  ⟨shutdown_terminates.1 (initShutdown 1) rfl,
   shutdown_terminates.2.1 2 (initShutdown 2) Relation.ReflTransGen.refl⟩

/-- C6: submitting a unit fails with `QueueClosed` exactly when the queue
has been closed and succeeds otherwise; closing is idempotent; and every
unit already enqueued at the moment of closing remains deliverable — a live
worker can still take it after the close. -/
theorem submit_close_contract (s : PoolSt) (u : String × Nat) :
    (okB (submitP s u) = false ↔ s.closed = true)
  ∧ closeP (closeP s) = closeP s
  ∧ (closeP s).queue = s.queue
  ∧ (∀ (id : Nat) (v : String × Nat) (rest : List (String × Nat)),
       1 ≤ s.live → s.queue = v :: rest →
       Step (closeP s)
         { closeP s with queue := rest,
                         buffer := s.buffer ++ (processUnit id v).toList }) := by
  refine ⟨?_, rfl, rfl, ?_⟩
  · cases hc : s.closed <;> simp [submitP, okB, hc]
  · intro id v rest hl hq
    exact Step.workerTake (closeP s) id v rest hl hq

/-- Witness for C6 at a one-worker pool holding one queued unit. -/
theorem submit_close_contract_witness :
    (okB (submitP ⟨false, [("GET a", 1)], 1, [], true, 0, CommandHandler.new⟩
          ("SET x y", 2)) = false
        ↔ (⟨false, [("GET a", 1)], 1, [], true, 0, CommandHandler.new⟩ : PoolSt).closed
            = true)
  ∧ Step (closeP ⟨false, [("GET a", 1)], 1, [], true, 0, CommandHandler.new⟩)
      { closeP ⟨false, [("GET a", 1)], 1, [], true, 0, CommandHandler.new⟩ with
          queue := [],
          buffer := (processUnit 0 ("GET a", 1)).toList } :=
  ⟨(submit_close_contract ⟨false, [("GET a", 1)], 1, [], true, 0, CommandHandler.new⟩
      ("SET x y", 2)).1,
   (submit_close_contract ⟨false, [("GET a", 1)], 1, [], true, 0, CommandHandler.new⟩
      ("SET x y", 2)).2.2.2 0 ("GET a", 1) [] (by decide) rfl⟩

/-! ## Grammar lemmas -/

theorem parseTokens_set (orig k v : String) (rest : List String) :
    parseTokens orig ("SET" :: k :: v :: rest)
      = .ok ⟨.Set k (String.intercalate " " (v :: rest))⟩ := by
  simp [parseTokens]

theorem parseTokens_get (orig k : String) :
    parseTokens orig ["GET", k] = .ok ⟨.Get k⟩ := by
  simp [parseTokens]

theorem parseTokens_del (orig k : String) :
    parseTokens orig ["DELETE", k] = .ok ⟨.Delete k⟩ := by
  simp [parseTokens]

theorem parseTokens_get_extra (orig k t : String) (rest : List String) :
    parseTokens orig ("GET" :: k :: t :: rest)
      = .error ("Invalid command: " ++ orig) := by
  simp [parseTokens]

theorem parseTokens_del_extra (orig k t : String) (rest : List String) :
    parseTokens orig ("DELETE" :: k :: t :: rest)
      = .error ("Invalid command: " ++ orig) := by
  simp [parseTokens]

theorem parseTokens_ok_iff (orig : String) (ts : List String) :
    okB (parseTokens orig ts) = true ↔
      (∃ k v rest, ts = "SET" :: k :: v :: rest)
    ∨ (∃ k, ts = ["GET", k])
    ∨ (∃ k, ts = ["DELETE", k]) := by
  match ts with
  | [] => simp [parseTokens, okB]
  | [t] => simp [parseTokens, okB]
  | verb :: key :: rest =>
      simp only [parseTokens]
      split_ifs with h1 h2 h3
      · obtain ⟨hverb, hne⟩ := h1
        subst hverb
        simp only [okB, true_iff]
        cases rest with
        | nil => exact absurd rfl hne
        | cons v r => exact Or.inl ⟨key, v, r, rfl⟩
      · obtain ⟨hverb, hnil⟩ := h2
        subst hverb hnil
        simp only [okB, true_iff]
        exact Or.inr (Or.inl ⟨key, rfl⟩)
      · obtain ⟨hverb, hnil⟩ := h3
        subst hverb hnil
        simp only [okB, true_iff]
        exact Or.inr (Or.inr ⟨key, rfl⟩)
      · refine ⟨fun hcontra => absurd hcontra (by simp [okB]), fun hshapes => ?_⟩
        exfalso
        rcases hshapes with ⟨k, v, r, hts⟩ | ⟨k, hts⟩ | ⟨k, hts⟩
        · injection hts with hv ht; injection ht with hk hr
          exact h1 ⟨hv, by simp [hr]⟩
        · injection hts with hv ht; injection ht with hk hr
          exact h2 ⟨hv, hr⟩
        · injection hts with hv ht; injection ht with hk hr
          exact h3 ⟨hv, hr⟩

theorem tokensOf_of_trim_empty {line : String}
    (h : (trimChars line.toList).isEmpty = true) : tokensOf line = [] := by
  have h' : trimChars line.toList = [] := by simpa using h
  unfold tokensOf
  rw [h']
  rfl

theorem fromStr_of_trim_nonempty {line : String}
    (h : (trimChars line.toList).isEmpty = false) :
    fromStr line = parseTokens (trimChars line.toList).asString (tokensOf line) := by
  have h' : ¬trimChars line.data = [] := by simpa using h
  simp [fromStr, h']

theorem fromStr_error_of_ne_ok {line : String}
    (h : okB (fromStr line) = false) : ∃ e, fromStr line = .error e := by
  cases hf : fromStr line with
  | ok c => rw [hf] at h; cases h
  | error e => exact ⟨e, rfl⟩

/-- C2: parsing succeeds exactly when the whitespace-delimited tokens of
the trimmed line are `SET` with a key and at least one value token (the
value being the remaining tokens joined with single spaces), `GET` with one
key, or `DELETE` with one key; every other token sequence — the empty line
included — fails with a parse error. -/
theorem grammar_spec (line : String) :
    (okB (fromStr line) = true ↔
       (∃ k v rest, tokensOf line = "SET" :: k :: v :: rest)
     ∨ (∃ k, tokensOf line = ["GET", k])
     ∨ (∃ k, tokensOf line = ["DELETE", k]))
  ∧ (∀ (k v : String) (rest : List String),
       tokensOf line = "SET" :: k :: v :: rest →
       fromStr line = .ok ⟨.Set k (String.intercalate " " (v :: rest))⟩)
  ∧ (∀ k, tokensOf line = ["GET", k] → fromStr line = .ok ⟨.Get k⟩)
  ∧ (∀ k, tokensOf line = ["DELETE", k] → fromStr line = .ok ⟨.Delete k⟩)
  ∧ (okB (fromStr line) = false → ∃ e, fromStr line = .error e) := by
  cases hE : (trimChars line.toList).isEmpty with
  | true =>
      have hT := tokensOf_of_trim_empty hE
      have hF : fromStr line = .error "Empty line" := by
        have h' : trimChars line.data = [] := by simpa using hE
        simp [fromStr, h']
      refine ⟨?_, ?_, ?_, ?_, fromStr_error_of_ne_ok⟩ <;>
        simp [hF, hT, okB]
  | false =>
      have hF := fromStr_of_trim_nonempty hE
      refine ⟨?_, ?_, ?_, ?_, fromStr_error_of_ne_ok⟩
      · rw [hF]; exact parseTokens_ok_iff _ _
      · intro k v rest h; rw [hF, h, parseTokens_set]
      · intro k h; rw [hF, h, parseTokens_get]
      · intro k h; rw [hF, h, parseTokens_del]

/-- Witness for C2 on concrete SET, GET and DELETE lines. -/
theorem grammar_spec_witness :
    fromStr "SET a b c" = .ok ⟨.Set "a" (String.intercalate " " ("b" :: ["c"]))⟩
  ∧ fromStr "GET k1" = .ok ⟨.Get "k1"⟩
  ∧ fromStr "DELETE k1" = .ok ⟨.Delete "k1"⟩ :=
  ⟨(grammar_spec "SET a b c").2.1 "a" "b" ["c"] (by decide),
   (grammar_spec "GET k1").2.2.1 "k1" (by decide),
   (grammar_spec "DELETE k1").2.2.2.1 "k1" (by decide)⟩

/-- C10: `GET` or `DELETE` followed by a key and any extra trailing token
fails to parse — the extra token is not ignored; for example `GET a b` is
rejected with a parse error. -/
theorem extra_token_rejected :
    (∀ (line k t : String) (rest : List String),
        tokensOf line = "GET" :: k :: t :: rest → okB (fromStr line) = false)
  ∧ (∀ (line k t : String) (rest : List String),
        tokensOf line = "DELETE" :: k :: t :: rest → okB (fromStr line) = false)
  ∧ fromStr "GET a b" = .error "Invalid command: GET a b" := by
  refine ⟨?_, ?_, rfl⟩
  · intro line k t rest h
    cases hE : (trimChars line.toList).isEmpty with
    | true => rw [tokensOf_of_trim_empty hE] at h; cases h
    | false => rw [fromStr_of_trim_nonempty hE, h, parseTokens_get_extra]; rfl
  · intro line k t rest h
    cases hE : (trimChars line.toList).isEmpty with
    | true => rw [tokensOf_of_trim_empty hE] at h; cases h
    | false => rw [fromStr_of_trim_nonempty hE, h, parseTokens_del_extra]; rfl

/-- Witness for C10 on `GET a b` and `DELETE a b`. -/
theorem extra_token_rejected_witness :
    okB (fromStr "GET a b") = false ∧ okB (fromStr "DELETE a b") = false :=
  ⟨extra_token_rejected.1 "GET a b" "a" "b" [] (by decide),
   extra_token_rejected.2.1 "DELETE a b" "a" "b" [] (by decide)⟩

end CrabbyKV
